import Mathlib

/-!
Verification of the smoothing-function playground core
(`src/main.rs` of MaikKlein/gamedev-playground).

The Rust source works with `f32`; here its arithmetic is embedded into `ℝ`
(real-valued semantics of the same expressions).  Pure functions of the
source become Lean functions, the Live-mode loop state becomes explicit
state passing, and the Compare-mode `simulate` loop becomes a list-building
recursion.
-/

namespace Playground

noncomputable section

/-- Embedding of `fn lerp(from, to, t) = from * (1.0 - t) + to * t`. -/
def lerp (a b t : ℝ) : ℝ := a * (1 - t) + b * t

/-- Embedding of `f32::exp2`, `exp2 x = 2 ^ x` (real power). -/
def exp2 (x : ℝ) : ℝ := (2 : ℝ) ^ x

/-- Embedding of the `Function` enum of `src/main.rs`: the five smoothing
variants with their parameters. -/
inductive Function where
  | Exact : Function
  | Lerp (factor : ℝ) : Function
  | DamperBad (damper : ℝ) : Function
  | DamperExact (half_life : ℝ) : Function
  | DamperExact2 (rate : ℝ) : Function

/-- Embedding of `Function::execute(&self, from, to, dt)`.
`f32::clamp(x, 0.0, 1.0)` is `min (max x 0) 1`. -/
def Function.execute : Function → ℝ → ℝ → ℝ → ℝ
  | .Exact, _, b, _ => b
  | .Lerp factor, a, b, _ => lerp a b factor
  | .DamperBad damper, a, b, dt => lerp a b (min (max (damper * dt) 0) 1)
  | .DamperExact half_life, a, b, dt =>
      lerp a b (1 - Real.exp (-(Real.log 2 * dt) / (half_life + 1e-5)))
  | .DamperExact2 rate, a, b, dt => lerp b a (exp2 (-rate * dt))

/-- The per-variant parameter ranges enforced by the UI sliders
(`Function::ui` in `src/main.rs`): factor `0.01..=1.0`, damper
`0.01..=20.0`, half_life `0.01..=1.0`, rate `0.01..=30.0`. -/
def paramsInRange : Function → Prop
  | .Exact => True
  | .Lerp factor => 0.01 ≤ factor ∧ factor ≤ 1
  | .DamperBad damper => 0.01 ≤ damper ∧ damper ≤ 20
  | .DamperExact half_life => 0.01 ≤ half_life ∧ half_life ≤ 1
  | .DamperExact2 rate => 0.01 ≤ rate ∧ rate ≤ 30

/-- The step count of `simulate`: `steps = target_duration / time_step`
with `time_step = 1.0 / frame_rate`, then `steps as u32` (truncation
toward zero, saturating at 0 for negative input). -/
def numSteps (target_duration frame_rate : ℝ) : ℕ :=
  (⌊target_duration / (1 / frame_rate)⌋).toNat

/-- The value-collecting loop body of `simulate`:
`for _ in 0..steps { current = f.execute(current, goal, time_step); values.push(current); }` -/
def simLoop (f : Function) (goal time_step : ℝ) : ℝ → ℕ → List ℝ
  | _, 0 => []
  | current, n + 1 =>
      let next := f.execute current goal time_step
      next :: simLoop f goal time_step next n

/-- Embedding of `fn simulate`'s value collection (the drawing part is UI):
pushes `start`, then runs the loop for `numSteps` iterations. -/
def simulate (target_duration frame_rate start goal : ℝ) (f : Function) : List ℝ :=
  let time_step := 1 / frame_rate
  start :: simLoop f goal time_step start (numSteps target_duration frame_rate)

/-- The trajectory of repeated evaluation:
`traj f goal dt start n` is the value after `n` steps of
`current = f.execute(current, goal, dt)`. -/
def traj (f : Function) (goal dt start : ℝ) : ℕ → ℝ
  | 0 => start
  | n + 1 => f.execute (traj f goal dt start n) goal dt

/-- `const MAX_HISTORY: usize = 240`. -/
def MAX_HISTORY : ℕ := 240

/-- Embedding of `history.resize(MAX_HISTORY, center)` on a `VecDeque`
modelled front-first as a list: truncate from the back when longer,
pad at the back with `center` when shorter. -/
def historyResize (h : List ℝ) (center : ℝ) : List ℝ :=
  if MAX_HISTORY ≤ h.length then h.take MAX_HISTORY
  else h ++ List.replicate (MAX_HISTORY - h.length) center

/-- The Live-mode loop state: the chased `value` and the history ring. -/
structure LiveState where
  value : ℝ
  history : List ℝ

/-- One Live-mode tick:
`value = f.execute(value, goal, dt); history.push_front(value); history.resize(MAX_HISTORY, center)`. -/
def liveTick (f : Function) (goal dt center : ℝ) (s : LiveState) : LiveState :=
  let v := f.execute s.value goal dt
  { value := v, history := historyResize (v :: s.history) center }

/-- Iterated Live-mode ticks with externally supplied per-tick goal and
delta-time sequences (`goals`, `dts` model the UI inputs). -/
def liveRun (f : Function) (goals dts : ℕ → ℝ) (center : ℝ) (s₀ : LiveState) : ℕ → LiveState
  | 0 => s₀
  | n + 1 => liveTick f (goals n) (dts n) center (liveRun f goals dts center s₀ n)

/-- Initial Live-mode state of `main`:
`value = goal` and `history = VecDeque::from([goal; MAX_HISTORY])`. -/
def liveInit (start : ℝ) : LiveState :=
  { value := start, history := List.replicate MAX_HISTORY start }

/-- `lerp v v t = v` for every blend factor. -/
lemma lerp_self (v t : ℝ) : lerp v v t = v := by
  unfold lerp; ring

/-- C1: For every smoothing-function variant (Exact, Lerp, DamperBad,
DamperExact, DamperExact2) with its parameters in the documented ranges,
and for every value `v` and every `dt` in `{0, 0.001, 1, 1000}`,
`evaluate(v, v, dt) = v` — a value already at the goal stays there. -/
theorem C1_fixed_point (f : Function) (v dt : ℝ)
    (hp : paramsInRange f)
    (hdt : dt = 0 ∨ dt = 0.001 ∨ dt = 1 ∨ dt = 1000) :
    f.execute v v dt = v := by
  cases f <;> simp only [Function.execute, lerp_self]

/-- C1 witness: the fixed-point theorem applied at the Lerp variant with
factor `0.5`, `v = 3`, `dt = 0.001`. -/
theorem C1_fixed_point_witness :
    paramsInRange (Function.Lerp 0.5) ∧ (Function.Lerp 0.5).execute 3 3 0.001 = 3 :=
  ⟨by constructor <;> norm_num,
   C1_fixed_point (Function.Lerp 0.5) 3 0.001 (by constructor <;> norm_num)
     (Or.inr (Or.inl rfl))⟩

/-- C5 counterexample: the Lerp variant (with the documented in-range
factor `0.5`) does NOT leave the value unchanged at `dt = 0`:
`evaluate(0, 1, 0) = 0.5 ≠ 0`.  `Lerp` ignores `dt` entirely. -/
theorem C5_counterexample :
    paramsInRange (Function.Lerp 0.5) ∧ (Function.Lerp 0.5).execute 0 1 0 ≠ 0 := by
  refine ⟨⟨by norm_num, by norm_num⟩, ?_⟩
  unfold Function.execute lerp
  norm_num

/-- C5 (amended): for every variant other than Exact and Lerp —
DamperBad, DamperExact, DamperExact2 with any parameters — a step with
`dt = 0` leaves the value unchanged; Exact still snaps to the target
(and Lerp still blends by its fixed factor, see the counterexample). -/
theorem C5_dt_zero_amended (d h r c t : ℝ) :
    (Function.DamperBad d).execute c t 0 = c ∧
    (Function.DamperExact h).execute c t 0 = c ∧
    (Function.DamperExact2 r).execute c t 0 = c ∧
    Function.Exact.execute c t 0 = t := by
  unfold Function.execute lerp exp2
  refine ⟨by norm_num, ?_, ?_, rfl⟩
  · norm_num
  · norm_num [Real.rpow_zero]

/-- C8: `DamperExact{half_life}` blends `current` toward `target` with
factor `1 - exp(-(ln 2 * dt) / (half_life + 1e-5))`, and
`DamperExact2{rate}` equals `lerp(target, current, 2^(-rate*dt))`, which is
the inverse-argument-order blend of the same exponential-decay family
(`lerp(current, target, 1 - exp(-(ln 2) * (rate * dt)))`). -/
theorem C8_blend_formulas (h r c t dt : ℝ) :
    (Function.DamperExact h).execute c t dt
      = lerp c t (1 - Real.exp (-(Real.log 2 * dt) / (h + 1e-5))) ∧
    (Function.DamperExact2 r).execute c t dt = lerp t c (exp2 (-r * dt)) ∧
    (Function.DamperExact2 r).execute c t dt
      = lerp c t (1 - Real.exp (-(Real.log 2 * (r * dt)))) := by
  refine ⟨rfl, rfl, ?_⟩
  simp only [Function.execute, exp2, lerp]
  rw [Real.rpow_def_of_pos (by norm_num : (0:ℝ) < 2)]
  ring_nf

/-- A blend with factor in `[0, 1]` lands in the closed interval between
the two endpoints. -/
lemma lerp_between (a b s : ℝ) (h0 : 0 ≤ s) (h1 : s ≤ 1) :
    min a b ≤ lerp a b s ∧ lerp a b s ≤ max a b := by
  unfold lerp
  rcases le_total a b with hab | hab
  · rw [min_eq_left hab, max_eq_right hab]
    constructor <;> nlinarith
  · rw [min_eq_right hab, max_eq_left hab]
    constructor <;> nlinarith

/-- C10: for every variant with parameters in the documented ranges and
every `dt ≥ 0`, `evaluate(current, target, dt)` lies in the closed
interval between `current` and `target`: the blend factor handed to
`lerp` is always in `[0, 1]`, so the value never overshoots the target
and never moves away from it. -/
theorem C10_no_overshoot (f : Function) (c t dt : ℝ)
    (hp : paramsInRange f) (hdt : 0 ≤ dt) :
    min c t ≤ f.execute c t dt ∧ f.execute c t dt ≤ max c t := by
  cases f with
  | Exact =>
      exact ⟨min_le_right c t, le_max_right c t⟩
  | Lerp factor =>
      obtain ⟨h1, h2⟩ := hp
      exact lerp_between c t factor (by linarith) h2
  | DamperBad damper =>
      refine lerp_between c t _ ?_ ?_
      · exact le_min (le_max_right _ 0) zero_le_one
      · exact min_le_right _ 1
  | DamperExact half_life =>
      obtain ⟨h1, h2⟩ := hp
      have hpos : (0:ℝ) < half_life + 1e-5 := by norm_num; linarith
      have hnum : 0 ≤ Real.log 2 * dt :=
        mul_nonneg (Real.log_nonneg (by norm_num)) hdt
      have hexp : -(Real.log 2 * dt) / (half_life + 1e-5) ≤ 0 :=
        div_nonpos_of_nonpos_of_nonneg (by linarith) (le_of_lt hpos)
      refine lerp_between c t _ ?_ ?_
      · have := Real.exp_le_one_iff.mpr hexp
        linarith
      · have := Real.exp_pos (-(Real.log 2 * dt) / (half_life + 1e-5))
        linarith
  | DamperExact2 rate =>
      obtain ⟨h1, h2⟩ := hp
      have hneg : -rate * dt ≤ 0 := by nlinarith
      have hβ0 : 0 ≤ exp2 (-rate * dt) :=
        le_of_lt (Real.rpow_pos_of_pos (by norm_num) _)
      have hβ1 : exp2 (-rate * dt) ≤ 1 :=
        Real.rpow_le_one_of_one_le_of_nonpos (by norm_num) hneg
      have := lerp_between t c (exp2 (-rate * dt)) hβ0 hβ1
      simpa only [Function.execute, min_comm t c, max_comm t c] using this

/-- C10 witness: the interval containment at the Exact variant with
`current = 0`, `target = 1`, `dt = 0`. -/
theorem C10_no_overshoot_witness :
    paramsInRange Function.Exact ∧ (0:ℝ) ≤ 0 ∧
    (min (0:ℝ) 1 ≤ Function.Exact.execute 0 1 0 ∧
      Function.Exact.execute 0 1 0 ≤ max (0:ℝ) 1) :=
  ⟨trivial, le_refl 0, C10_no_overshoot Function.Exact 0 1 0 trivial (le_refl 0)⟩

/-- The collecting loop pushes exactly one value per iteration. -/
lemma simLoop_length (f : Function) (goal time_step : ℝ) :
    ∀ (current : ℝ) (n : ℕ), (simLoop f goal time_step current n).length = n := by
  intro current n
  induction n generalizing current with
  | zero => rfl
  | succ n ih => simp [simLoop, ih]

/-- The step count is `⌊duration * frame_rate⌋` (saturated to `ℕ`),
since `duration / (1 / r) = duration * r` over `ℝ`. -/
lemma numSteps_eq_floor_mul (d r : ℝ) : numSteps d r = (⌊d * r⌋).toNat := by
  unfold numSteps
  rw [one_div, div_inv_eq_mul]

/-- C3: a Compare-mode run with `simulating_time = 2.0` and
`frame_rate = 60` performs exactly 120 evaluation steps and collects
exactly 121 values, the first collected value being the configured start;
in general the number of steps is `floor(simulating_time * frame_rate)`
with `fixedDt = 1 / frame_rate`. -/
theorem C3_compare_step_count (s g : ℝ) (f : Function) :
    numSteps 2 60 = 120 ∧
    (simulate 2 60 s g f).length = 121 ∧
    (simulate 2 60 s g f).head? = some s ∧
    ∀ d r : ℝ, numSteps d r = (⌊d * r⌋).toNat := by
  have h120 : numSteps 2 60 = 120 := by
    rw [numSteps_eq_floor_mul, show (2:ℝ) * 60 = ((120:ℤ):ℝ) by norm_num,
      Int.floor_intCast]
    rfl
  refine ⟨h120, ?_, rfl, numSteps_eq_floor_mul⟩
  simp [simulate, simLoop_length, h120]

/-- C4: a Compare-mode run with `simulating_time = 0.05` and
`frame_rate = 10` (so `time_step = 0.1` and `steps = ⌊0.5⌋ = 0`) performs
no evaluation step: the trajectory is exactly the one-element list holding
the start value. -/
theorem C4_degenerate_run (s g : ℝ) (f : Function) :
    simulate 0.05 10 s g f = [s] ∧ (simulate 0.05 10 s g f).length = 1 := by
  have hfl : ⌊(0.05 : ℝ) * 10⌋ = 0 := by
    rw [Int.floor_eq_iff]
    norm_num
  have h0 : numSteps 0.05 10 = 0 := by
    rw [numSteps_eq_floor_mul, hfl]
    rfl
  constructor
  · simp [simulate, h0, simLoop]
  · simp [simulate, simLoop_length, h0]

/-- `DamperExact` written as decay of the gap: the goal plus the
remaining fraction of `current - goal`. -/
lemma damperExact_gap (h c t dt : ℝ) :
    (Function.DamperExact h).execute c t dt
      = t + (c - t) * Real.exp (-(Real.log 2 * dt) / (h + 1e-5)) := by
  simp only [Function.execute, lerp]
  ring

/-- `DamperExact2` written as decay of the gap. -/
lemma damperExact2_gap (r c t dt : ℝ) :
    (Function.DamperExact2 r).execute c t dt
      = t + (c - t) * exp2 (-r * dt) := by
  simp only [Function.execute, lerp]
  ring

/-- If one step multiplies the gap to the goal by `ρ`, then `n` steps
multiply it by `ρ ^ n`. -/
lemma traj_affine (f : Function) (g dt s ρ : ℝ)
    (hf : ∀ x, f.execute x g dt = g + (x - g) * ρ) :
    ∀ n, traj f g dt s n = g + (s - g) * ρ ^ n := by
  intro n
  induction n with
  | zero => simp [traj]
  | succ n ih =>
      rw [traj, hf, ih]
      ring

/-- Shared argument for both exact dampers: a per-step gap factor in
`(0, 1)` gives a monotone trajectory converging to the goal. -/
lemma geom_traj_props (f : Function) (g dt s ρ : ℝ)
    (hf : ∀ x, f.execute x g dt = g + (x - g) * ρ)
    (h0 : 0 < ρ) (h1 : ρ < 1) :
    (s < g → ∀ n, traj f g dt s n ≤ traj f g dt s (n + 1)) ∧
    (g < s → ∀ n, traj f g dt s (n + 1) ≤ traj f g dt s n) ∧
    Filter.Tendsto (traj f g dt s) Filter.atTop (nhds g) := by
  have key := traj_affine f g dt s ρ hf
  refine ⟨?_, ?_, ?_⟩
  · intro hs n
    rw [key n, key (n + 1), pow_succ]
    have hp : 0 < ρ ^ n * (1 - ρ) := mul_pos (pow_pos h0 n) (by linarith)
    have hkey : (s - g) * (ρ ^ n * (1 - ρ)) < 0 :=
      mul_neg_of_neg_of_pos (by linarith) hp
    nlinarith [hkey]
  · intro hs n
    rw [key n, key (n + 1), pow_succ]
    have hp : 0 < ρ ^ n * (1 - ρ) := mul_pos (pow_pos h0 n) (by linarith)
    have hkey : 0 < (s - g) * (ρ ^ n * (1 - ρ)) :=
      mul_pos (by linarith) hp
    nlinarith [hkey]
  · have hpow : Filter.Tendsto (fun n : ℕ => ρ ^ n) Filter.atTop (nhds 0) :=
      tendsto_pow_atTop_nhds_zero_of_lt_one (le_of_lt h0) h1
    have hmul : Filter.Tendsto (fun n : ℕ => g + (s - g) * ρ ^ n)
        Filter.atTop (nhds (g + (s - g) * 0)) :=
      (hpow.const_mul (s - g)).const_add g
    rw [mul_zero, add_zero] at hmul
    exact hmul.congr fun n => (key n).symm

/-- C6: for `DamperExact` (half_life > 0) and `DamperExact2` (rate > 0)
and every fixed `dt > 0`, iterating `evaluate(·, target, dt)` from
`current < target` gives a non-decreasing sequence converging to
`target`; symmetrically, from `current > target` the sequence is
non-increasing and converges to `target`.  (Convergence holds from any
start.) -/
theorem C6_monotone_convergence (h r dt c t : ℝ)
    (hh : 0 < h) (hr : 0 < r) (hdt : 0 < dt) :
    ((c < t → ∀ n, traj (Function.DamperExact h) t dt c n
        ≤ traj (Function.DamperExact h) t dt c (n + 1)) ∧
     (t < c → ∀ n, traj (Function.DamperExact h) t dt c (n + 1)
        ≤ traj (Function.DamperExact h) t dt c n) ∧
     Filter.Tendsto (traj (Function.DamperExact h) t dt c)
        Filter.atTop (nhds t)) ∧
    ((c < t → ∀ n, traj (Function.DamperExact2 r) t dt c n
        ≤ traj (Function.DamperExact2 r) t dt c (n + 1)) ∧
     (t < c → ∀ n, traj (Function.DamperExact2 r) t dt c (n + 1)
        ≤ traj (Function.DamperExact2 r) t dt c n) ∧
     Filter.Tendsto (traj (Function.DamperExact2 r) t dt c)
        Filter.atTop (nhds t)) := by
  have hlog : 0 < Real.log 2 := Real.log_pos (by norm_num)
  constructor
  · have hpos : (0:ℝ) < h + 1e-5 := by positivity
    have hexp : -(Real.log 2 * dt) / (h + 1e-5) < 0 := by
      apply div_neg_of_neg_of_pos _ hpos
      nlinarith
    exact geom_traj_props _ t dt c _
      (fun x => damperExact_gap h x t dt)
      (Real.exp_pos _) (Real.exp_lt_one_iff.mpr hexp)
  · have hneg : -r * dt < 0 := by nlinarith
    exact geom_traj_props _ t dt c _
      (fun x => damperExact2_gap r x t dt)
      (Real.rpow_pos_of_pos (by norm_num) _)
      (Real.rpow_lt_one_of_one_lt_of_neg (by norm_num) hneg)

/-- C6 witness: monotone step 0 of `DamperExact` with `half_life = 1`,
`dt = 1`, from `current = 0` toward `target = 1`. -/
theorem C6_monotone_convergence_witness :
    (0:ℝ) < 1 ∧ traj (Function.DamperExact 1) 1 1 0 0
      ≤ traj (Function.DamperExact 1) 1 1 0 1 :=
  ⟨one_pos,
   ((C6_monotone_convergence 1 1 1 0 1 one_pos one_pos one_pos).1.1 one_pos) 0⟩

/-- C2 counterexample: with `half_life = 1` the documented correspondence
`rate = ln 2 / half_life` does NOT reproduce `DamperExact`: already after
one step (`dt = 1`, start `1`, goal `0`) the two trajectories differ by
far more than `1e-4`.  (`DamperExact2`'s per-step gap factor is
`2^(-rate*dt)`, whose half-life is `1/rate`, not `ln 2 / rate`.) -/
theorem C2_counterexample :
    (1e-4 : ℝ) < |traj (Function.DamperExact2 (Real.log 2 / 1)) 0 1 1 1
                  - traj (Function.DamperExact 1) 0 1 1 1| := by
  have u_lt : Real.log 2 < 0.6931471808 := Real.log_two_lt_d9
  have u_gt : (0.6931471803:ℝ) < Real.log 2 := Real.log_two_gt_d9
  have u_pos : (0:ℝ) < Real.log 2 := by linarith
  have h1 : traj (Function.DamperExact2 (Real.log 2 / 1)) 0 1 1 1
      = Real.exp (-(Real.log 2 ^ 2)) := by
    have e0 : traj (Function.DamperExact2 (Real.log 2 / 1)) 0 1 1 1
        = (Function.DamperExact2 (Real.log 2 / 1)).execute 1 0 1 := rfl
    rw [e0, damperExact2_gap]
    unfold exp2
    rw [Real.rpow_def_of_pos (by norm_num : (0:ℝ) < 2),
      show Real.log 2 * (-(Real.log 2 / 1) * 1) = -(Real.log 2 ^ 2) by ring]
    ring
  have h2 : traj (Function.DamperExact 1) 0 1 1 1
      = Real.exp (-(Real.log 2 * 1) / (1 + 1e-5)) := by
    have e0 : traj (Function.DamperExact 1) 0 1 1 1
        = (Function.DamperExact 1).execute 1 0 1 := rfl
    rw [e0, damperExact_gap]
    ring
  set δ : ℝ := Real.log 2 * (1 / 100001) with hδdef
  have hsplit : -(Real.log 2 * 1) / (1 + 1e-5) = -Real.log 2 + δ := by
    rw [hδdef]
    field_simp
    ring
  have hδ0 : 0 ≤ δ := by
    rw [hδdef]; positivity
  have hδ1 : δ < 1e-5 := by
    rw [hδdef]; linarith
  have hexpδ : Real.exp δ ≤ 1 / (1 - δ) := by
    have hb := Real.add_one_le_exp (-δ)
    rw [Real.exp_neg] at hb
    have hpos := Real.exp_pos δ
    rw [le_div_iff (by linarith : (0:ℝ) < 1 - δ)]
    calc Real.exp δ * (1 - δ) ≤ Real.exp δ * (Real.exp δ)⁻¹ := by
          apply mul_le_mul_of_nonneg_left (by linarith) (le_of_lt hpos)
      _ = 1 := mul_inv_cancel₀ (ne_of_gt hpos)
  have hvEb : Real.exp (-(Real.log 2 * 1) / (1 + 1e-5)) ≤ 0.5001 := by
    rw [hsplit, Real.exp_add, Real.exp_neg,
      Real.exp_log (by norm_num : (0:ℝ) < 2)]
    have hmono : (1:ℝ) / (1 - δ) ≤ 1 / (1 - 1e-5) :=
      one_div_le_one_div_of_le (by norm_num) (by linarith)
    have : Real.exp δ ≤ 1 / (1 - 1e-5) := le_trans hexpδ hmono
    nlinarith [Real.exp_pos δ]
  have hv2b : (0.5195:ℝ) ≤ Real.exp (-(Real.log 2 ^ 2)) := by
    have hb := Real.add_one_le_exp (-(Real.log 2 ^ 2))
    nlinarith [u_lt, u_pos]
  rw [h1, h2]
  have hdiff : (1e-4:ℝ) < Real.exp (-(Real.log 2 ^ 2))
      - Real.exp (-(Real.log 2 * 1) / (1 + 1e-5)) := by
    linarith
  exact lt_of_lt_of_le hdiff (le_abs_self _)

/-- Pointwise refinement: `DamperExact{half_life}` coincides exactly with
`DamperExact2{rate = 1 / (half_life + 1e-5)}` on every input. -/
lemma damperExact_eq_damperExact2 (h c t dt : ℝ) :
    (Function.DamperExact h).execute c t dt
      = (Function.DamperExact2 (1 / (h + 1e-5))).execute c t dt := by
  rw [damperExact_gap, damperExact2_gap]
  unfold exp2
  rw [Real.rpow_def_of_pos (by norm_num : (0:ℝ) < 2),
    show Real.log 2 * (-(1 / (h + 1e-5)) * dt)
      = -(Real.log 2 * dt) / (h + 1e-5) by ring]

/-- C2 (amended): the mathematically corresponding rate for
`DamperExact{half_life: h}` is `rate = 1 / (h + 1e-5)` (the code adds
`1e-5` to the half-life before use), not `ln 2 / h`.  With that rate the
two trajectories from the same start, goal and fixed `dt` are equal at
every step — in particular within `1e-4` for at least 50 steps. -/
theorem C2_rate_correspondence_amended (h s g dt : ℝ)
    (hh : 0 < h) (hdt : 0 < dt) :
    ∀ n : ℕ,
      traj (Function.DamperExact h) g dt s n
        = traj (Function.DamperExact2 (1 / (h + 1e-5))) g dt s n ∧
      |traj (Function.DamperExact h) g dt s n
        - traj (Function.DamperExact2 (1 / (h + 1e-5))) g dt s n| ≤ 1e-4 := by
  have key : ∀ m, traj (Function.DamperExact h) g dt s m
      = traj (Function.DamperExact2 (1 / (h + 1e-5))) g dt s m := by
    intro m
    induction m with
    | zero => rfl
    | succ m ih =>
        simp only [traj]
        rw [ih, damperExact_eq_damperExact2]
  intro n
  refine ⟨key n, ?_⟩
  rw [key n, sub_self, abs_zero]
  norm_num

/-- C2 witness: the amended correspondence at `half_life = 1`, `dt = 1`,
start `0`, goal `1`, step `0`. -/
theorem C2_rate_correspondence_witness :
    (0:ℝ) < 1 ∧ traj (Function.DamperExact 1) 1 1 0 0
      = traj (Function.DamperExact2 (1 / (1 + 1e-5))) 1 1 0 0 :=
  ⟨one_pos, (C2_rate_correspondence_amended 1 0 1 1 one_pos one_pos 0).1⟩

/-- Stepping once and then iterating equals iterating from the stepped
value. -/
lemma traj_shift (f : Function) (g dt : ℝ) :
    ∀ (n : ℕ) (s : ℝ), traj f g dt s (n + 1) = traj f g dt (f.execute s g dt) n := by
  intro n
  induction n with
  | zero => intro s; rfl
  | succ n ih =>
      intro s
      calc traj f g dt s (n + 1 + 1)
          = f.execute (traj f g dt s (n + 1)) g dt := rfl
        _ = f.execute (traj f g dt (f.execute s g dt) n) g dt := by rw [ih]
        _ = traj f g dt (f.execute s g dt) (n + 1) := rfl

/-- The last collected value of the `simulate` loop is the `n`-step
trajectory value. -/
lemma cons_simLoop_getLastD (f : Function) (g ts : ℝ) :
    ∀ (n : ℕ) (c x : ℝ), (c :: simLoop f g ts c n).getLastD x = traj f g ts c n := by
  intro n
  induction n with
  | zero => intro c x; rfl
  | succ n ih =>
      intro c x
      simp only [simLoop]
      rw [List.getLastD_cons, ih, traj_shift]

/-- The last value of a Compare-mode run. -/
lemma simulate_getLastD (d r s g x : ℝ) (f : Function) :
    (simulate d r s g f).getLastD x = traj f g (1 / r) s (numSteps d r) :=
  cons_simLoop_getLastD f g (1 / r) (numSteps d r) s x

/-- C7: frame-rate dependence of the "bad" variants.  With factor `0.5`
(resp. damper `5.0`, the default) and `simulating_time = 0.1`, the
Compare-mode runs at 60 fps and at 15 fps end more than `1/100` apart,
both for Lerp and for DamperBad. -/
theorem C7_frame_rate_dependence :
    (1/100 : ℝ) < |(simulate 0.1 60 1 0 (Function.Lerp 0.5)).getLastD 1
                   - (simulate 0.1 15 1 0 (Function.Lerp 0.5)).getLastD 1| ∧
    (1/100 : ℝ) < |(simulate 0.1 60 1 0 (Function.DamperBad 5)).getLastD 1
                   - (simulate 0.1 15 1 0 (Function.DamperBad 5)).getLastD 1| := by
  have h60 : numSteps 0.1 60 = 6 := by
    rw [numSteps_eq_floor_mul, show (0.1:ℝ) * 60 = ((6:ℤ):ℝ) by norm_num,
      Int.floor_intCast]
    rfl
  have h15 : numSteps 0.1 15 = 1 := by
    have hfl : ⌊(0.1:ℝ) * 15⌋ = 1 := by
      rw [Int.floor_eq_iff]
      norm_num
    rw [numSteps_eq_floor_mul, hfl]
    rfl
  constructor
  · have k60 : traj (Function.Lerp 0.5) 0 (1/60) 1 6 = (1/2) ^ 6 := by
      rw [traj_affine (Function.Lerp 0.5) 0 (1/60) 1 (1/2)
        (fun x => by simp only [Function.execute, lerp]; ring) 6]
      ring
    have k15 : traj (Function.Lerp 0.5) 0 (1/15) 1 1 = (1/2) ^ 1 := by
      rw [traj_affine (Function.Lerp 0.5) 0 (1/15) 1 (1/2)
        (fun x => by simp only [Function.execute, lerp]; ring) 1]
      ring
    rw [simulate_getLastD, simulate_getLastD, h60, h15, k60, k15]
    rw [abs_sub_comm, abs_of_pos (by norm_num)]
    norm_num
  · have hc60 : min (max ((5:ℝ) * (1/60)) 0) 1 = 1/12 := by
      rw [max_eq_left (by norm_num), min_eq_left (by norm_num)]
      norm_num
    have hc15 : min (max ((5:ℝ) * (1/15)) 0) 1 = 1/3 := by
      rw [max_eq_left (by norm_num), min_eq_left (by norm_num)]
      norm_num
    have k60 : traj (Function.DamperBad 5) 0 (1/60) 1 6 = (11/12) ^ 6 := by
      rw [traj_affine (Function.DamperBad 5) 0 (1/60) 1 (11/12)
        (fun x => by simp only [Function.execute, lerp, hc60]; ring) 6]
      ring
    have k15 : traj (Function.DamperBad 5) 0 (1/15) 1 1 = (2/3) ^ 1 := by
      rw [traj_affine (Function.DamperBad 5) 0 (1/15) 1 (2/3)
        (fun x => by simp only [Function.execute, lerp, hc15]; ring) 1]
      ring
    rw [simulate_getLastD, simulate_getLastD, h60, h15, k60, k15]
    rw [abs_sub_comm, abs_of_pos (by norm_num)]
    norm_num

/-- Invariant of the Live-mode history ring: it always holds exactly 240
entries; entry `i` (front = newest) is the value pushed at tick `n - i`
while `i < n`, and a pre-fill copy of the start value otherwise. -/
lemma liveRun_history_inv (f : Function) (goals dts : ℕ → ℝ) (center start : ℝ) :
    ∀ n : ℕ,
      (liveRun f goals dts center (liveInit start) n).history.length = 240 ∧
      ∀ i : ℕ,
        (liveRun f goals dts center (liveInit start) n).history[i]?
          = if i < 240 then
              some (if i < n
                then (liveRun f goals dts center (liveInit start) (n - i)).value
                else start)
            else none := by
  intro n
  induction n with
  | zero =>
      have h0 : (liveRun f goals dts center (liveInit start) 0).history
          = List.replicate MAX_HISTORY start := rfl
      refine ⟨by rw [h0, List.length_replicate]; rfl, fun i => ?_⟩
      rw [h0, List.getElem?_replicate]
      simp only [MAX_HISTORY, Nat.not_lt_zero, if_false]
  | succ n ih =>
      obtain ⟨ihlen, ihget⟩ := ih
      have hstep :
          (liveRun f goals dts center (liveInit start) (n + 1)).history
            = ((liveRun f goals dts center (liveInit start) (n + 1)).value
                :: (liveRun f goals dts center (liveInit start) n).history).take 240 := by
        show (liveTick f (goals n) (dts n) center
            (liveRun f goals dts center (liveInit start) n)).history = _
        simp only [liveTick, historyResize, List.length_cons, ihlen, MAX_HISTORY]
        rw [if_pos (by norm_num)]
        rfl
      have hlen :
          (liveRun f goals dts center (liveInit start) (n + 1)).history.length = 240 := by
        rw [hstep, List.length_take, List.length_cons, ihlen]
        omega
      refine ⟨hlen, fun i => ?_⟩
      rw [hstep, List.getElem?_take]
      rcases Nat.lt_or_ge i 240 with hi | hi
      · rw [if_pos hi, if_pos hi]
        cases i with
        | zero =>
            simp [Nat.sub_zero]
        | succ j =>
            rw [List.getElem?_cons_succ, ihget j,
              if_pos (by omega : j < 240)]
            have h1 : j + 1 < n + 1 ↔ j < n := by omega
            have h2 : n + 1 - (j + 1) = n - j := by omega
            by_cases hj : j < n
            · rw [if_pos hj, if_pos (h1.mpr hj), h2]
            · rw [if_neg hj, if_neg (fun hc => hj (h1.mp hc))]
      · rw [if_neg (by omega), if_neg (by omega)]

/-- C9: the Live-mode history buffer starts as 240 copies of the starting
value; each tick pushes the new value at the front and evicts the oldest,
so after 300 ticks it still holds exactly 240 values, slot `i` holding the
value pushed at tick `300 - i` — every pre-fill copy of the start has been
evicted. -/
theorem C9_history_ring (f : Function) (goals dts : ℕ → ℝ) (center start : ℝ) :
    (liveInit start).history = List.replicate 240 start ∧
    (liveInit start).history.length = 240 ∧
    (liveRun f goals dts center (liveInit start) 300).history.length = 240 ∧
    ∀ i : ℕ,
      (liveRun f goals dts center (liveInit start) 300).history[i]?
        = if i < 240 then
            some ((liveRun f goals dts center (liveInit start) (300 - i)).value)
          else none := by
  obtain ⟨hlen, hget⟩ := liveRun_history_inv f goals dts center start 300
  have hinit : (liveInit start).history = List.replicate MAX_HISTORY start := rfl
  refine ⟨rfl, by rw [hinit, List.length_replicate]; rfl, hlen, fun i => ?_⟩
  rw [hget i]
  rcases Nat.lt_or_ge i 240 with hi | hi
  · rw [if_pos hi, if_pos hi, if_pos (by omega : i < 300)]
  · rw [if_neg (by omega), if_neg (by omega)]

end

end Playground
